import Mathlib

/-!
Verification of the blink-alloc arena core.

The repository's visible sources are `src/arena/local.rs` (`ArenaLocal`),
`src/arena/sync.rs` (`ArenaSync`) and `src/tests.rs`.  Both arena files
delegate to the chunk engine of their parent module (`ChunkHeader`,
`alloc_slow`, `resize_slow`, `dealloc`, `reset`, `reset_leak`, the
`with_cursor!` macro and `CHUNK_START_SIZE`), which is not part of the
visible sources; those definitions are modelled from the specification and
are marked as such below.  Machine addresses are natural numbers; the
`prev` ownership links of the chunk chain are represented by a list of
chunk headers, newest first, and the `None` root by the empty list.
-/

namespace BlinkAlloc

/-- Rust `core::alloc::Layout`: a requested size and alignment.  Rust
guarantees the alignment of a real `Layout` is a positive power of two;
theorems assume positivity where the arithmetic needs it. -/
structure Layout where
  size : Nat
  align : Nat
deriving Repr, DecidableEq

/-- Modelled from the spec: the chunk header produced by the missing
`with_cursor!` macro — bump cursor, fixed `base`/`end` bounds of the usable
region and the cumulative size of all older chunks (spec section 3). -/
structure ChunkHeader where
  base : Nat
  cursor : Nat
  endAddr : Nat
  cumulative_size : Nat
deriving Repr, DecidableEq

/-- Capacity of a chunk: the usable bytes between `base` and `end`. -/
def ChunkHeader.cap (c : ChunkHeader) : Nat := c.endAddr - c.base

/-- State shared by `ArenaLocal` and `ArenaSync`: the owned chunk chain
(newest first; the empty list is the `None` root) and the minimum chunk
size fixed at construction. -/
structure ArenaState where
  chunks : List ChunkHeader
  min_chunk_size : Nat
deriving Repr, DecidableEq

/-- Root of the chain: the newest chunk, if any. -/
def ArenaState.root (σ : ArenaState) : Option ChunkHeader := σ.chunks.head?

/-- Modelled from the spec: the default minimum chunk size
(`CHUNK_START_SIZE` in the missing arena module).  No claim observes its
concrete value. -/
def CHUNK_START_SIZE : Nat := 32

/-- Modelled from the spec: the header overhead of a chunk
(`size_of::<ChunkHeader>()` in the missing arena module): four 8-byte
words — cursor, end bound, previous link and cumulative size. -/
def CHUNK_HEADER_SIZE : Nat := 32

/-- Align `n` upward to a multiple of `a` (meaningful for `0 < a`). -/
def alignUp (n a : Nat) : Nat := ((n + (a - 1)) / a) * a

/-- Modelled from the spec: fast-path bump allocation inside one chunk
(`ChunkHeader::alloc`): compute the next address at or above the cursor
satisfying the alignment; if the block fits before `end`, advance the
cursor past it and return its address, else report no room (spec
section 4.1). -/
def ChunkHeader.alloc (c : ChunkHeader) (l : Layout) : Option (Nat × ChunkHeader) :=
  if alignUp c.cursor l.align + l.size ≤ c.endAddr then
    some (alignUp c.cursor l.align, { c with cursor := alignUp c.cursor l.align + l.size })
  else
    none

/-- Modelled from the spec: fast-path in-place resize
(`ChunkHeader::resize`): succeeds only when `ptr` is the tail block
(`ptr + old.size == cursor`); shrinking always succeeds in place, growing
succeeds when the room left in the chunk covers the difference (spec
section 4.1). -/
def ChunkHeader.resize (c : ChunkHeader) (ptr : Nat) (old new : Layout) :
    Option (Nat × ChunkHeader) :=
  if ptr + old.size = c.cursor then
    if new.size ≤ old.size then
      some (ptr, { c with cursor := ptr + new.size })
    else if c.cursor + (new.size - old.size) ≤ c.endAddr then
      some (ptr, { c with cursor := ptr + new.size })
    else
      none
  else
    none

/-- Upstream byte-allocator interface, as consumed by the slow path: given
the total byte size of a chunk request, return the base address of a fresh
block or `none` on allocation failure (spec section 6). -/
def Allocator : Type := Nat → Option Nat

/-- Allocation failure surfaced by the slow paths (`AllocError`). -/
inductive AllocError where
  | allocError
deriving Repr, DecidableEq

/-- Modelled from the spec: the capacity requested for a new chunk before
power-of-two rounding — the minimum chunk size when the chain is empty, or
strictly more than the previous chunk's capacity so chunks grow
geometrically (pinned by the 32-to-96 scenario of spec sections 8 and 9),
and in any case enough room for the triggering layout. -/
def chunkRequest (root : Option ChunkHeader) (min_chunk_size : Nat) (l : Layout) : Nat :=
  let grow :=
    match root with
    | none => min_chunk_size
    | some c => c.cap + 1
  max grow (l.size + l.align)

/-- Fuel-driven helper for `nextPow2`: double `p` until it reaches `n`. -/
def nextPow2From (n : Nat) : Nat → Nat → Nat
  | 0, p => p
  | f + 1, p => if n ≤ p then p else nextPow2From n f (2 * p)

/-- Smallest power of two that is at least `n` (Rust `next_power_of_two`). -/
def nextPow2 (n : Nat) : Nat := nextPow2From n n 1

/-- Modelled from the spec: total bytes requested from the upstream
allocator for a new chunk — capacity plus header overhead, rounded up to a
power of two (spec section 4.1). -/
def chunkTotal (root : Option ChunkHeader) (min_chunk_size : Nat) (l : Layout) : Nat :=
  nextPow2 (chunkRequest root min_chunk_size l + CHUNK_HEADER_SIZE)

/-- Modelled from the spec: the header written into a fresh upstream block
at address `addr` of `total` bytes: the usable region starts after the
header, the cursor starts at `base`, and the cumulative size is the
previous chunk's capacity plus its own cumulative size (spec section 3). -/
def chunkFrom (addr total : Nat) (prev : Option ChunkHeader) : ChunkHeader :=
  { base := addr + CHUNK_HEADER_SIZE
    cursor := addr + CHUNK_HEADER_SIZE
    endAddr := addr + total
    cumulative_size :=
      match prev with
      | none => 0
      | some p => p.cap + p.cumulative_size }

/-- Modelled from the spec: the slow path (`alloc_slow` in the missing
arena module): request a new chunk from the upstream allocator, link it in
as the new root and serve the triggering allocation from it; on upstream
failure return `AllocError` with the arena untouched (spec sections 4.1
and 7). -/
def alloc_slow (σ : ArenaState) (l : Layout) (A : Allocator) :
    Except AllocError Nat × ArenaState :=
  match A (chunkTotal σ.root σ.min_chunk_size l) with
  | none => (.error .allocError, σ)
  | some addr =>
    match ChunkHeader.alloc (chunkFrom addr (chunkTotal σ.root σ.min_chunk_size l) σ.root) l with
    | some (p, c') => (.ok p, { σ with chunks := c' :: σ.chunks })
    | none => (.error .allocError, σ)

/-- Modelled from the spec: tail-reclaiming deallocation (`dealloc` in the
missing arena module): a no-op unless `ptr + size` is exactly the root
chunk's cursor, in which case the cursor retracts to `ptr` (spec
section 4.1). -/
def dealloc (σ : ArenaState) (ptr size : Nat) : ArenaState :=
  match σ.chunks with
  | [] => σ
  | c :: rest =>
    if ptr + size = c.cursor then
      { σ with chunks := { c with cursor := ptr } :: rest }
    else
      σ

/-- Modelled from the spec: `reset` in the missing arena module — release
every chunk of the chain back to the upstream allocator, except that
`keep_last = true` retains the newest chunk with its cursor rewound to
`base` and its cumulative size zeroed.  Releasing memory has no observable
effect on the arena state itself (spec sections 4.2 and 6). -/
def reset (σ : ArenaState) (keep_last : Bool) (A : Allocator) : ArenaState :=
  match σ.chunks with
  | [] => σ
  | c :: _ =>
    if keep_last then
      { σ with chunks := [{ c with cursor := c.base, cumulative_size := 0 }] }
    else
      { σ with chunks := [] }

/-- Modelled from the spec: `reset_leak` in the missing arena module —
the same root transformation as `reset` but without ever calling the
upstream allocator; abandoned chunks are leaked (spec section 4.2). -/
def reset_leak (σ : ArenaState) (keep_last : Bool) : ArenaState :=
  match σ.chunks with
  | [] => σ
  | c :: _ =>
    if keep_last then
      { σ with chunks := [{ c with cursor := c.base, cumulative_size := 0 }] }
    else
      { σ with chunks := [] }

/-- Transcribed from `ArenaLocal::new`. -/
def ArenaLocal.new : ArenaState :=
  { chunks := [], min_chunk_size := CHUNK_START_SIZE }

/-- Transcribed from `ArenaLocal::with_chunk_size`. -/
def ArenaLocal.with_chunk_size (m : Nat) : ArenaState :=
  { chunks := [], min_chunk_size := m }

/-- Transcribed from `ArenaSync::new`. -/
def ArenaSync.new : ArenaState :=
  { chunks := [], min_chunk_size := CHUNK_START_SIZE }

/-- Transcribed from `ArenaSync::with_chunk_size`. -/
def ArenaSync.with_chunk_size (m : Nat) : ArenaState :=
  { chunks := [], min_chunk_size := m }

/-- Transcribed from `ArenaLocal::alloc_fast`: try the root chunk, `None`
when there is no chunk.  No allocator is consulted. -/
def ArenaLocal.alloc_fast (σ : ArenaState) (l : Layout) : Option (Nat × ArenaState) :=
  match σ.chunks with
  | [] => none
  | c :: rest =>
    match ChunkHeader.alloc c l with
    | some (p, c') => some (p, { σ with chunks := c' :: rest })
    | none => none

/-- Transcribed from `ArenaSync::alloc_fast`: under the read lock, try the
root chunk, `None` when there is no chunk.  No allocator is consulted. -/
def ArenaSync.alloc_fast (σ : ArenaState) (l : Layout) : Option (Nat × ArenaState) :=
  match σ.chunks with
  | [] => none
  | c :: rest =>
    match ChunkHeader.alloc c l with
    | some (p, c') => some (p, { σ with chunks := c' :: rest })
    | none => none

/-- Transcribed from `ArenaLocal::resize_fast`: try the root chunk, `None`
when there is no chunk. -/
def ArenaLocal.resize_fast (σ : ArenaState) (ptr : Nat) (old new : Layout) :
    Option (Nat × ArenaState) :=
  match σ.chunks with
  | [] => none
  | c :: rest =>
    match ChunkHeader.resize c ptr old new with
    | some (p, c') => some (p, { σ with chunks := c' :: rest })
    | none => none

/-- Transcribed from `ArenaSync::resize_fast`: under the read lock, try
the root chunk, `None` when there is no chunk. -/
def ArenaSync.resize_fast (σ : ArenaState) (ptr : Nat) (old new : Layout) :
    Option (Nat × ArenaState) :=
  match σ.chunks with
  | [] => none
  | c :: rest =>
    match ChunkHeader.resize c ptr old new with
    | some (p, c') => some (p, { σ with chunks := c' :: rest })
    | none => none

/-- Caller-level allocation protocol: fast path first, slow path on
failure (spec section 4.2).  Modelled from the spec: the `BlinkAlloc`
wrapper that drives the two paths is outside the visible sources. -/
def allocate (σ : ArenaState) (l : Layout) (A : Allocator) :
    Except AllocError Nat × ArenaState :=
  match ArenaLocal.alloc_fast σ l with
  | some (p, σ') => (.ok p, σ')
  | none => alloc_slow σ l A

/-- Modelled from the spec: `resize_slow` in the missing arena module —
fall back to allocate-new, copy the original bytes (no observable effect
on the arena state) and abandon the old block (spec sections 4.1 and
4.2).  `ptr` and `old` govern only the byte copy. -/
def resize_slow (σ : ArenaState) (ptr : Nat) (old new : Layout) (A : Allocator) :
    Except AllocError Nat × ArenaState :=
  allocate σ new A

/-- Transcribed from `ArenaLocal::allocated_bytes`: zero without a root,
else the root chunk's cursor offset plus its cumulative size. -/
def ArenaLocal.allocated_bytes (σ : ArenaState) : Nat :=
  match σ.root with
  | none => 0
  | some c => (c.cursor - c.base) + c.cumulative_size

/-- Transcribed from `ArenaLocal::total_capacity`: zero without a root,
else the root chunk's capacity plus its cumulative size. -/
def ArenaLocal.total_capacity (σ : ArenaState) : Nat :=
  match σ.root with
  | none => 0
  | some c => c.cap + c.cumulative_size

/-- Transcribed from `ArenaSync::allocated_bytes` (taken under the read
lock; the computation matches `ArenaLocal::allocated_bytes`). -/
def ArenaSync.allocated_bytes (σ : ArenaState) : Nat :=
  match σ.root with
  | none => 0
  | some c => (c.cursor - c.base) + c.cumulative_size

/-- Transcribed from `ArenaSync::total_capacity` (taken under the read
lock; the computation matches `ArenaLocal::total_capacity`). -/
def ArenaSync.total_capacity (σ : ArenaState) : Nat :=
  match σ.root with
  | none => 0
  | some c => c.cap + c.cumulative_size

/-- Transcribed from `impl Drop for ArenaLocal`: the debug assertion
checked at drop — the root must be `None`. -/
def ArenaLocal.dropCheck (σ : ArenaState) : Bool := σ.root.isNone

/-- Transcribed from `impl Drop for ArenaSync`: the debug assertion
checked at drop — the root must be `None`. -/
def ArenaSync.dropCheck (σ : ArenaState) : Bool := σ.root.isNone

/-- Run a list of allocation requests through `allocate`, failing the
whole run on the first allocation error. -/
def runPattern (A : Allocator) : ArenaState → List Layout → Except AllocError ArenaState
  | σ, [] => .ok σ
  | σ, l :: ls =>
    match allocate σ l A with
    | (.ok _, σ') => runPattern A σ' ls
    | (.error e, _) => .error e

/-- Run a list of allocations purely on one chunk's fast path. -/
def fastRunChunk (c : ChunkHeader) : List Layout → Option ChunkHeader
  | [] => some c
  | l :: ls =>
    match ChunkHeader.alloc c l with
    | some (_, c') => fastRunChunk c' ls
    | none => none

/-- Bump invariant of one chunk: `base ≤ cursor ≤ end` (spec section 3). -/
def wfChunk (c : ChunkHeader) : Prop := c.base ≤ c.cursor ∧ c.cursor ≤ c.endAddr

/-- Arena invariant: every chunk of the chain satisfies the bump
invariant. -/
def wfArena (σ : ArenaState) : Prop := ∀ c ∈ σ.chunks, wfChunk c

/-- One arena operation, carrying the validity conditions of the
corresponding unsafe contracts: layouts have positive alignment (as every
Rust `Layout` does) and pointers handed to `dealloc`/`resize` were issued
by this arena, hence are not below the root chunk's base when they match
its tail. -/
inductive Step (A : Allocator) : ArenaState → ArenaState → Prop where
  | alloc_fast {σ σ' : ArenaState} {l : Layout} {p : Nat} (ha : 0 < l.align)
      (h : ArenaLocal.alloc_fast σ l = some (p, σ')) : Step A σ σ'
  | alloc_slow {σ : ArenaState} {l : Layout} (ha : 0 < l.align) :
      Step A σ (BlinkAlloc.alloc_slow σ l A).2
  | resize_fast {σ σ' : ArenaState} {ptr : Nat} {old new : Layout} {p : Nat}
      (hptr : ∀ c ∈ σ.root, c.base ≤ ptr)
      (h : ArenaLocal.resize_fast σ ptr old new = some (p, σ')) : Step A σ σ'
  | resize_slow {σ : ArenaState} {ptr : Nat} {old new : Layout} (ha : 0 < new.align) :
      Step A σ (BlinkAlloc.resize_slow σ ptr old new A).2
  | dealloc {σ : ArenaState} {ptr size : Nat}
      (hptr : ∀ c ∈ σ.root, ptr + size = c.cursor → c.base ≤ ptr) :
      Step A σ (BlinkAlloc.dealloc σ ptr size)
  | reset {σ : ArenaState} (keep_last : Bool) :
      Step A σ (BlinkAlloc.reset σ keep_last A)
  | reset_leak {σ : ArenaState} (keep_last : Bool) :
      Step A σ (BlinkAlloc.reset_leak σ keep_last)

/-- Capacity formula exactly as the claim words it: `max(min_chunk_size,
s)` rounded so that capacity plus header overhead is the next power of
two, the header overhead subtracted back out.  Stated for refinement
comparison against the slow path's actual growth. -/
def claimedCapacity (min_chunk_size s : Nat) : Nat :=
  nextPow2 (max min_chunk_size s + CHUNK_HEADER_SIZE) - CHUNK_HEADER_SIZE

/-- One successful compare-and-swap of the multi-reader fast path: the
cursor value the winning thread observed, and the alignment and size of
its layout (spec sections 4.1 and 5). -/
structure CasEvent where
  observed : Nat
  align : Nat
  size : Nat
deriving Repr, DecidableEq

/-- Start of the byte range returned for one CAS event. -/
def CasEvent.start (e : CasEvent) : Nat := alignUp e.observed e.align

/-- End of the byte range returned for one CAS event; also the cursor
value the successful compare-and-swap installs. -/
def CasEvent.stop (e : CasEvent) : Nat := e.start + e.size

/-- Modelled from the spec: validity of a linearized trace of successful
compare-and-swap fast-path allocations on one shared chunk ending at
`endAddr`, starting from cursor `cur`: each winning CAS observed the then
current cursor (atomicity of compare-and-swap), its layout has positive
alignment, its block fits in the chunk, and the installed cursor is the
end of its block.  Failed CAS attempts retry and leave no trace. -/
def validCasTrace (endAddr : Nat) : Nat → List CasEvent → Prop
  | _, [] => True
  | cur, e :: es =>
    e.observed = cur ∧ 0 < e.align ∧ e.stop ≤ endAddr ∧ validCasTrace endAddr e.stop es

/-- Allocation pattern of the spec's section 8 scenario: eleven 3-byte,
byte-aligned allocations. -/
def scenarioPattern : List Layout := List.replicate 11 ⟨3, 1⟩

/-- Upstream allocator for concrete runs: always succeeds, placing every
chunk at address 0 (chunk addresses are never compared across chunks). -/
def zeroAllocator : Allocator := fun _ => some 0

/-- Unfolding a `some` root into the shape of the chunk list. -/
theorem root_some_elim (σ : ArenaState) (c : ChunkHeader) (h : σ.root = some c) :
    ∃ rest, σ.chunks = c :: rest := by
  cases hc : σ.chunks with
  | nil => simp [ArenaState.root, hc] at h
  | cons c0 rest =>
    refine ⟨rest, ?_⟩
    have he : c0 = c := by simpa [ArenaState.root, hc] using h
    rw [he]

/-- Aligning up never moves an address backward (positive alignment). -/
theorem le_alignUp (n a : Nat) (ha : 0 < a) : n ≤ alignUp n a := by
  unfold alignUp
  rw [Nat.mul_comm]
  have h := Nat.div_add_mod (n + (a - 1)) a
  have hlt : (n + (a - 1)) % a < a := Nat.mod_lt _ ha
  omega

/-- Helper bound for `nextPow2From`: enough fuel reaches the target. -/
theorem le_nextPow2From (n : Nat) : ∀ f p : Nat, n ≤ p * 2 ^ f → n ≤ nextPow2From n f p := by
  intro f
  induction f with
  | zero =>
    intro p h
    simpa [nextPow2From] using h
  | succ f ih =>
    intro p h
    unfold nextPow2From
    split
    · assumption
    · refine ih (2 * p) ?_
      have he : 2 * p * 2 ^ f = p * 2 ^ (f + 1) := by ring
      omega

/-- The rounded chunk size is at least the requested size. -/
theorem le_nextPow2 (n : Nat) : n ≤ nextPow2 n :=
  le_nextPow2From n n 1 (by simpa using Nat.le_of_lt (Nat.lt_two_pow n))

/-- Fast-path allocation preserves the bump invariant of the chunk. -/
theorem wfChunk_alloc {c c' : ChunkHeader} {l : Layout} {p : Nat} (ha : 0 < l.align)
    (hwf : wfChunk c) (h : ChunkHeader.alloc c l = some (p, c')) : wfChunk c' := by
  unfold ChunkHeader.alloc at h
  split at h
  case isTrue hfit =>
    simp only [Option.some.injEq, Prod.mk.injEq] at h
    obtain ⟨hp, hc'⟩ := h
    subst hc'
    have hal := le_alignUp c.cursor l.align ha
    obtain ⟨h1, h2⟩ := hwf
    exact ⟨by simp; omega, by simp; omega⟩
  case isFalse => exact Option.noConfusion h

/-- Fast-path resize preserves the bump invariant of the chunk, for any
tail pointer at or above the chunk base. -/
theorem wfChunk_resize {c c' : ChunkHeader} {ptr : Nat} {old new : Layout} {p : Nat}
    (hptr : c.base ≤ ptr) (hwf : wfChunk c)
    (h : ChunkHeader.resize c ptr old new = some (p, c')) : wfChunk c' := by
  unfold ChunkHeader.resize at h
  obtain ⟨h1, h2⟩ := hwf
  split at h
  case isTrue htail =>
    split at h
    case isTrue hshrink =>
      simp only [Option.some.injEq, Prod.mk.injEq] at h
      obtain ⟨hp, hc'⟩ := h
      subst hc'
      exact ⟨by simp; omega, by simp; omega⟩
    case isFalse hgrow =>
      split at h
      case isTrue hroom =>
        simp only [Option.some.injEq, Prod.mk.injEq] at h
        obtain ⟨hp, hc'⟩ := h
        subst hc'
        exact ⟨by simp; omega, by simp; omega⟩
      case isFalse => exact Option.noConfusion h
  case isFalse => exact Option.noConfusion h

/-- A freshly carved chunk satisfies the bump invariant. -/
theorem wfChunk_chunkFrom (addr : Nat) (root : Option ChunkHeader) (m : Nat) (l : Layout) :
    wfChunk (chunkFrom addr (chunkTotal root m l) root) := by
  have h := le_nextPow2 (chunkRequest root m l + CHUNK_HEADER_SIZE)
  unfold wfChunk chunkFrom chunkTotal
  constructor
  · simp
  · simp only
    have h32 : CHUNK_HEADER_SIZE = 32 := rfl
    omega

/-- The single-owner fast allocation path preserves the arena invariant. -/
theorem wfArena_alloc_fast {σ σ' : ArenaState} {l : Layout} {p : Nat} (ha : 0 < l.align)
    (hwf : wfArena σ) (h : ArenaLocal.alloc_fast σ l = some (p, σ')) : wfArena σ' := by
  obtain ⟨chunks, m⟩ := σ
  cases chunks with
  | nil => exact Option.noConfusion h
  | cons c rest =>
    cases halloc : ChunkHeader.alloc c l with
    | none =>
      simp only [ArenaLocal.alloc_fast, halloc] at h
      exact Option.noConfusion h
    | some pc =>
      obtain ⟨q, c'⟩ := pc
      simp only [ArenaLocal.alloc_fast, halloc, Option.some.injEq, Prod.mk.injEq] at h
      obtain ⟨hp, hσ'⟩ := h
      subst hσ'
      intro d hd
      simp only [List.mem_cons] at hd
      rcases hd with hd | hd
      · subst hd
        exact wfChunk_alloc ha (hwf c (List.mem_cons_self c rest)) halloc
      · exact hwf d (List.mem_cons_of_mem c hd)

/-- The single-owner fast resize path preserves the arena invariant. -/
theorem wfArena_resize_fast {σ σ' : ArenaState} {ptr : Nat} {old new : Layout} {p : Nat}
    (hptr : ∀ c ∈ σ.root, c.base ≤ ptr) (hwf : wfArena σ)
    (h : ArenaLocal.resize_fast σ ptr old new = some (p, σ')) : wfArena σ' := by
  obtain ⟨chunks, m⟩ := σ
  cases chunks with
  | nil => exact Option.noConfusion h
  | cons c rest =>
    cases hres : ChunkHeader.resize c ptr old new with
    | none =>
      simp only [ArenaLocal.resize_fast, hres] at h
      exact Option.noConfusion h
    | some pc =>
      obtain ⟨q, c'⟩ := pc
      simp only [ArenaLocal.resize_fast, hres, Option.some.injEq, Prod.mk.injEq] at h
      obtain ⟨hp, hσ'⟩ := h
      subst hσ'
      have hb : c.base ≤ ptr := hptr c (by simp [ArenaState.root])
      intro d hd
      simp only [List.mem_cons] at hd
      rcases hd with hd | hd
      · subst hd
        exact wfChunk_resize hb (hwf c (List.mem_cons_self c rest)) hres
      · exact hwf d (List.mem_cons_of_mem c hd)

/-- The slow allocation path preserves the arena invariant, whether the
upstream allocator succeeds or fails. -/
theorem wfArena_alloc_slow {σ : ArenaState} {l : Layout} (A : Allocator) (ha : 0 < l.align)
    (hwf : wfArena σ) : wfArena (alloc_slow σ l A).2 := by
  unfold alloc_slow
  cases hA : A (chunkTotal σ.root σ.min_chunk_size l) with
  | none => exact hwf
  | some addr =>
    cases halloc :
        ChunkHeader.alloc (chunkFrom addr (chunkTotal σ.root σ.min_chunk_size l) σ.root) l with
    | none => simp only [halloc]; exact hwf
    | some pc =>
      obtain ⟨p, c'⟩ := pc
      simp only [halloc]
      intro d hd
      simp only [List.mem_cons] at hd
      rcases hd with hd | hd
      · subst hd
        exact wfChunk_alloc ha (wfChunk_chunkFrom addr σ.root σ.min_chunk_size l) halloc
      · exact hwf d hd

/-- Tail deallocation preserves the arena invariant when the retracted
pointer respects the chunk base. -/
theorem wfArena_dealloc {σ : ArenaState} {ptr size : Nat}
    (hptr : ∀ c ∈ σ.root, ptr + size = c.cursor → c.base ≤ ptr) (hwf : wfArena σ) :
    wfArena (dealloc σ ptr size) := by
  obtain ⟨chunks, m⟩ := σ
  cases chunks with
  | nil => exact hwf
  | cons c rest =>
    by_cases htail : ptr + size = c.cursor
    · have hb : c.base ≤ ptr := hptr c (by simp [ArenaState.root]) htail
      have hwfc := hwf c (List.mem_cons_self c rest)
      obtain ⟨h1, h2⟩ := hwfc
      simp only [dealloc, if_pos htail]
      intro d hd
      simp only [List.mem_cons] at hd
      rcases hd with hd | hd
      · subst hd
        exact ⟨by simp; omega, by simp; omega⟩
      · exact hwf d (List.mem_cons_of_mem c hd)
    · simp only [dealloc, if_neg htail]
      exact hwf

/-- Reset preserves the arena invariant. -/
theorem wfArena_reset {σ : ArenaState} {b : Bool} {A : Allocator} (hwf : wfArena σ) :
    wfArena (reset σ b A) := by
  obtain ⟨chunks, m⟩ := σ
  cases chunks with
  | nil => exact hwf
  | cons c rest =>
    cases b with
    | true =>
      simp only [reset, if_true]
      intro d hd
      simp only [List.mem_cons, List.not_mem_nil, or_false] at hd
      subst hd
      have hwfc := hwf c (List.mem_cons_self c rest)
      exact ⟨Nat.le_refl _, hwfc.1.trans hwfc.2⟩
    | false =>
      intro d hd
      simp [reset] at hd

/-- Leaking reset preserves the arena invariant. -/
theorem wfArena_reset_leak {σ : ArenaState} {b : Bool} (hwf : wfArena σ) :
    wfArena (reset_leak σ b) := by
  obtain ⟨chunks, m⟩ := σ
  cases chunks with
  | nil => exact hwf
  | cons c rest =>
    cases b with
    | true =>
      simp only [reset_leak, if_true]
      intro d hd
      simp only [List.mem_cons, List.not_mem_nil, or_false] at hd
      subst hd
      have hwfc := hwf c (List.mem_cons_self c rest)
      exact ⟨Nat.le_refl _, hwfc.1.trans hwfc.2⟩
    | false =>
      intro d hd
      simp [reset_leak] at hd

/-- On a well-formed arena the capacity dominates the allocation count,
for both arena variants. -/
theorem wf_tracking_le {σ : ArenaState} (hwf : wfArena σ) :
    ArenaLocal.allocated_bytes σ ≤ ArenaLocal.total_capacity σ ∧
    ArenaSync.allocated_bytes σ ≤ ArenaSync.total_capacity σ := by
  cases hc : σ.chunks with
  | nil =>
    simp [ArenaLocal.allocated_bytes, ArenaLocal.total_capacity, ArenaSync.allocated_bytes,
      ArenaSync.total_capacity, ArenaState.root, hc]
  | cons c rest =>
    have hwfc := hwf c (by rw [hc]; exact List.mem_cons_self c rest)
    obtain ⟨h1, h2⟩ := hwfc
    have hcap : c.cursor - c.base ≤ c.cap := by
      unfold ChunkHeader.cap
      omega
    simp only [ArenaLocal.allocated_bytes, ArenaLocal.total_capacity,
      ArenaSync.allocated_bytes, ArenaSync.total_capacity, ArenaState.root, hc,
      List.head?_cons]
    omega

/-- C2: every arena operation — fast or slow allocation, fast or slow
resize, deallocation, reset — preserves the bump invariant
`base ≤ cursor ≤ end` of every chunk, and on the reached state
`total_capacity() ≥ allocated_bytes()` holds for both arena variants. -/
theorem step_preserves_capacity_bound (A : Allocator) (σ σ' : ArenaState)
    (hwf : wfArena σ) (hstep : Step A σ σ') :
    wfArena σ' ∧
    ArenaLocal.allocated_bytes σ' ≤ ArenaLocal.total_capacity σ' ∧
    ArenaSync.allocated_bytes σ' ≤ ArenaSync.total_capacity σ' := by
  have hwf' : wfArena σ' := by
    cases hstep with
    | alloc_fast ha h => exact wfArena_alloc_fast ha hwf h
    | alloc_slow ha => exact wfArena_alloc_slow A ha hwf
    | resize_fast hptr h => exact wfArena_resize_fast hptr hwf h
    | resize_slow ha =>
      rename_i ptr old nw
      unfold resize_slow allocate
      cases hfast : ArenaLocal.alloc_fast σ nw with
      | none =>
        simp only [hfast]
        exact wfArena_alloc_slow A ha hwf
      | some pσ =>
        obtain ⟨p, σ''⟩ := pσ
        simp only [hfast]
        exact wfArena_alloc_fast ha hwf hfast
    | dealloc hptr => exact wfArena_dealloc hptr hwf
    | reset keep_last => exact wfArena_reset hwf
    | reset_leak keep_last => exact wfArena_reset_leak hwf
  exact ⟨hwf', (wf_tracking_le hwf').1, (wf_tracking_le hwf').2⟩

/-- Witness for C2: a concrete fast allocation step on a well-formed
one-chunk arena keeps the invariant and the capacity bound. -/
theorem step_preserves_capacity_bound_witness :
    wfArena { chunks := [⟨32, 40, 64, 0⟩], min_chunk_size := 32 } ∧
    (wfArena { chunks := [⟨32, 48, 64, 0⟩], min_chunk_size := 32 } ∧
      ArenaLocal.allocated_bytes { chunks := [⟨32, 48, 64, 0⟩], min_chunk_size := 32 } ≤
        ArenaLocal.total_capacity { chunks := [⟨32, 48, 64, 0⟩], min_chunk_size := 32 } ∧
      ArenaSync.allocated_bytes { chunks := [⟨32, 48, 64, 0⟩], min_chunk_size := 32 } ≤
        ArenaSync.total_capacity { chunks := [⟨32, 48, 64, 0⟩], min_chunk_size := 32 }) := by
  have hwf : wfArena { chunks := [⟨32, 40, 64, 0⟩], min_chunk_size := 32 } := by
    intro c hc
    simp only [List.mem_cons, List.not_mem_nil, or_false] at hc
    subst hc
    exact ⟨by decide, by decide⟩
  refine ⟨hwf, ?_⟩
  refine step_preserves_capacity_bound (fun _ => some 0) _ _ hwf ?_
  exact @Step.alloc_fast (fun _ => some 0) { chunks := [⟨32, 40, 64, 0⟩], min_chunk_size := 32 }
    { chunks := [⟨32, 48, 64, 0⟩], min_chunk_size := 32 } ⟨8, 8⟩ 40 (by decide) (by rfl)

/-- C5: a slow-path call whose upstream allocation fails returns an
explicit `AllocError` and leaves the arena state — chunk chain, root,
cursors and both tracking queries — exactly as before the call. -/
theorem slow_path_failure_preserves_state (σ : ArenaState) (l old new : Layout)
    (ptr : Nat) (A : Allocator)
    (hA : A (chunkTotal σ.root σ.min_chunk_size l) = none) :
    alloc_slow σ l A = (.error .allocError, σ) ∧
    ArenaLocal.allocated_bytes (alloc_slow σ l A).2 = ArenaLocal.allocated_bytes σ ∧
    ArenaLocal.total_capacity (alloc_slow σ l A).2 = ArenaLocal.total_capacity σ ∧
    (∀ e, (resize_slow σ ptr old new A).1 = .error e →
      (resize_slow σ ptr old new A).2 = σ ∧ e = .allocError) := by
  have h1 : alloc_slow σ l A = (.error .allocError, σ) := by
    unfold alloc_slow
    rw [hA]
  refine ⟨h1, by rw [h1], by rw [h1], ?_⟩
  intro e he
  unfold resize_slow allocate at he ⊢
  cases hfast : ArenaLocal.alloc_fast σ new with
  | some pσ =>
    obtain ⟨p, σ''⟩ := pσ
    simp only [hfast] at he
    exact Except.noConfusion he
  | none =>
    simp only [hfast] at he ⊢
    unfold alloc_slow at he ⊢
    cases hA' : A (chunkTotal σ.root σ.min_chunk_size new) with
    | none =>
      simp only [hA'] at he ⊢
      cases e
      exact ⟨by trivial, by trivial⟩
    | some addr =>
      simp only [hA'] at he ⊢
      cases halloc :
          ChunkHeader.alloc (chunkFrom addr (chunkTotal σ.root σ.min_chunk_size new) σ.root)
            new with
      | none =>
        simp only [halloc] at he ⊢
        cases e
        exact ⟨by trivial, by trivial⟩
      | some pc =>
        obtain ⟨p, c'⟩ := pc
        simp only [halloc] at he
        exact Except.noConfusion he

/-- Witness for C5: a failing upstream allocator at a concrete one-chunk
arena leaves the state untouched. -/
theorem slow_path_failure_preserves_state_witness :
    alloc_slow { chunks := [⟨32, 40, 64, 0⟩], min_chunk_size := 32 } ⟨100, 1⟩
        (fun _ => none) =
      (.error .allocError, { chunks := [⟨32, 40, 64, 0⟩], min_chunk_size := 32 }) :=
  (slow_path_failure_preserves_state { chunks := [⟨32, 40, 64, 0⟩], min_chunk_size := 32 }
    ⟨100, 1⟩ ⟨4, 4⟩ ⟨8, 4⟩ 36 (fun _ => none) rfl).1

/-- C1: for a non-empty chunk chain, `allocated_bytes()` is the newest
chunk's `cursor − base` plus its `cumulative_size`, and `total_capacity()`
is the newest chunk's capacity plus its `cumulative_size`; the values
depend only on the newest chunk's header, and the same formulas hold for
`ArenaLocal` and `ArenaSync`. -/
theorem tracking_formulas (σ : ArenaState) (c : ChunkHeader) (h : σ.root = some c) :
    ArenaLocal.allocated_bytes σ = (c.cursor - c.base) + c.cumulative_size ∧
    ArenaLocal.total_capacity σ = c.cap + c.cumulative_size ∧
    ArenaSync.allocated_bytes σ = (c.cursor - c.base) + c.cumulative_size ∧
    ArenaSync.total_capacity σ = c.cap + c.cumulative_size := by
  simp [ArenaLocal.allocated_bytes, ArenaLocal.total_capacity,
    ArenaSync.allocated_bytes, ArenaSync.total_capacity, h]

/-- Witness for C1 at a concrete two-chunk arena. -/
theorem tracking_formulas_witness :
    ArenaLocal.allocated_bytes
        { chunks := [⟨32, 40, 64, 96⟩, ⟨0, 16, 16, 0⟩], min_chunk_size := 32 } =
      (40 - 32) + 96 ∧
    ArenaLocal.total_capacity
        { chunks := [⟨32, 40, 64, 96⟩, ⟨0, 16, 16, 0⟩], min_chunk_size := 32 } =
      ChunkHeader.cap ⟨32, 40, 64, 96⟩ + 96 ∧
    ArenaSync.allocated_bytes
        { chunks := [⟨32, 40, 64, 96⟩, ⟨0, 16, 16, 0⟩], min_chunk_size := 32 } =
      (40 - 32) + 96 ∧
    ArenaSync.total_capacity
        { chunks := [⟨32, 40, 64, 96⟩, ⟨0, 16, 16, 0⟩], min_chunk_size := 32 } =
      ChunkHeader.cap ⟨32, 40, 64, 96⟩ + 96 :=
  tracking_formulas _ ⟨32, 40, 64, 96⟩ rfl

/-- C3: after a retaining reset of an arena owning at least one chunk,
`allocated_bytes()` is zero and `total_capacity()` is positive (the newest
chunk stays, rewound to `base`, cumulative size zeroed); after a
non-retaining `reset` or `reset_leak`, both are zero and the root becomes
`None`. -/
theorem reset_tracking (σ : ArenaState) (c : ChunkHeader) (A : Allocator)
    (h : σ.root = some c) (hcap : 0 < c.cap) :
    ArenaLocal.allocated_bytes (reset σ true A) = 0 ∧
    0 < ArenaLocal.total_capacity (reset σ true A) ∧
    (reset σ true A).root = some { c with cursor := c.base, cumulative_size := 0 } ∧
    ArenaLocal.allocated_bytes (reset σ false A) = 0 ∧
    ArenaLocal.total_capacity (reset σ false A) = 0 ∧
    (reset σ false A).root = none ∧
    ArenaLocal.allocated_bytes (reset_leak σ false) = 0 ∧
    ArenaLocal.total_capacity (reset_leak σ false) = 0 ∧
    (reset_leak σ false).root = none := by
  obtain ⟨rest, hc⟩ := root_some_elim σ c h
  have hcap' : 0 < ChunkHeader.cap { c with cursor := c.base, cumulative_size := 0 } := hcap
  simp [reset, reset_leak, hc, ArenaState.root, ArenaLocal.allocated_bytes,
    ArenaLocal.total_capacity, hcap']

/-- Witness for C3 at a concrete one-chunk arena. -/
theorem reset_tracking_witness :
    0 < ChunkHeader.cap ⟨32, 40, 64, 0⟩ ∧
    ArenaLocal.allocated_bytes
        (reset { chunks := [⟨32, 40, 64, 0⟩], min_chunk_size := 32 } true (fun _ => some 0)) = 0 ∧
    0 < ArenaLocal.total_capacity
        (reset { chunks := [⟨32, 40, 64, 0⟩], min_chunk_size := 32 } true (fun _ => some 0)) ∧
    ArenaLocal.total_capacity
        (reset { chunks := [⟨32, 40, 64, 0⟩], min_chunk_size := 32 } false (fun _ => some 0)) = 0 :=
  have h := reset_tracking { chunks := [⟨32, 40, 64, 0⟩], min_chunk_size := 32 }
    ⟨32, 40, 64, 0⟩ (fun _ => some 0) rfl (by decide)
  ⟨by decide, h.1, h.2.1, h.2.2.2.2.1⟩

/-- C4: `dealloc(ptr, size)` retracts the cursor to `ptr` exactly when
`ptr + size` is the newest chunk's cursor — shrinking `allocated_bytes()`
by exactly `size` — and is a complete no-op otherwise. -/
theorem dealloc_tail_reclaim (σ : ArenaState) (c : ChunkHeader) (ptr size : Nat)
    (h : σ.root = some c) (hbase : c.base ≤ ptr) :
    (ptr + size = c.cursor →
      (dealloc σ ptr size).root = some { c with cursor := ptr } ∧
      ArenaLocal.allocated_bytes σ = ArenaLocal.allocated_bytes (dealloc σ ptr size) + size ∧
      ArenaSync.allocated_bytes σ = ArenaSync.allocated_bytes (dealloc σ ptr size) + size) ∧
    (ptr + size ≠ c.cursor → dealloc σ ptr size = σ) := by
  obtain ⟨rest, hc⟩ := root_some_elim σ c h
  constructor
  · intro htail
    simp [dealloc, hc, htail, ArenaState.root, ArenaLocal.allocated_bytes,
      ArenaSync.allocated_bytes]
    omega
  · intro htail
    simp [dealloc, hc, htail]

/-- Witness for C4: tail deallocation of a 5-byte block at a concrete
arena, and a non-tail deallocation left as a no-op. -/
theorem dealloc_tail_reclaim_witness :
    (35 + 5 = (40 : Nat) →
      (dealloc { chunks := [⟨32, 40, 64, 7⟩], min_chunk_size := 32 } 35 5).root =
        some ⟨32, 35, 64, 7⟩ ∧
      ArenaLocal.allocated_bytes { chunks := [⟨32, 40, 64, 7⟩], min_chunk_size := 32 } =
        ArenaLocal.allocated_bytes
          (dealloc { chunks := [⟨32, 40, 64, 7⟩], min_chunk_size := 32 } 35 5) + 5 ∧
      ArenaSync.allocated_bytes { chunks := [⟨32, 40, 64, 7⟩], min_chunk_size := 32 } =
        ArenaSync.allocated_bytes
          (dealloc { chunks := [⟨32, 40, 64, 7⟩], min_chunk_size := 32 } 35 5) + 5) ∧
    (35 + 5 ≠ (40 : Nat) →
      dealloc { chunks := [⟨32, 40, 64, 7⟩], min_chunk_size := 32 } 35 5 =
        { chunks := [⟨32, 40, 64, 7⟩], min_chunk_size := 32 }) :=
  dealloc_tail_reclaim { chunks := [⟨32, 40, 64, 7⟩], min_chunk_size := 32 }
    ⟨32, 40, 64, 7⟩ 35 5 rfl (by decide)

/-- C8: the drop-time debug assertion of both arenas passes exactly when
the root is `None`; a non-retaining reset always brings the arena into the
droppable state. -/
theorem drop_check_requires_empty_root (σ : ArenaState) (A : Allocator) :
    ArenaLocal.dropCheck (reset σ false A) = true ∧
    ArenaSync.dropCheck (reset σ false A) = true ∧
    (σ.root ≠ none → ArenaLocal.dropCheck σ = false ∧ ArenaSync.dropCheck σ = false) ∧
    (σ.root = none → ArenaLocal.dropCheck σ = true ∧ ArenaSync.dropCheck σ = true) := by
  cases hc : σ.chunks with
  | nil =>
    simp [reset, hc, ArenaLocal.dropCheck, ArenaSync.dropCheck, ArenaState.root]
  | cons c rest =>
    simp [reset, hc, ArenaLocal.dropCheck, ArenaSync.dropCheck, ArenaState.root]

/-- Witness for C8: an arena still owning a chunk fails the drop check and
passes it after the non-retaining reset. -/
theorem drop_check_requires_empty_root_witness :
    ArenaLocal.dropCheck
      (reset { chunks := [⟨32, 40, 64, 0⟩], min_chunk_size := 32 } false (fun _ => some 0)) =
        true ∧
    ArenaLocal.dropCheck { chunks := [⟨32, 40, 64, 0⟩], min_chunk_size := 32 } = false ∧
    ArenaSync.dropCheck { chunks := [⟨32, 40, 64, 0⟩], min_chunk_size := 32 } = false :=
  have h := drop_check_requires_empty_root
    { chunks := [⟨32, 40, 64, 0⟩], min_chunk_size := 32 } (fun _ => some 0)
  ⟨h.1, (h.2.2.1 (by decide)).1, (h.2.2.1 (by decide)).2⟩

/-- C10: with no root chunk, the fast paths of both arenas refuse every
layout (they take no allocator and produce no new state), and both
tracking queries report zero; freshly constructed arenas and arenas after
a non-retaining reset are in exactly this state. -/
theorem empty_root_fast_paths (σ σ' : ArenaState) (l old new : Layout) (ptr m : Nat)
    (A : Allocator) (h : σ.root = none) :
    ArenaLocal.alloc_fast σ l = none ∧
    ArenaSync.alloc_fast σ l = none ∧
    ArenaLocal.resize_fast σ ptr old new = none ∧
    ArenaSync.resize_fast σ ptr old new = none ∧
    ArenaLocal.allocated_bytes σ = 0 ∧
    ArenaLocal.total_capacity σ = 0 ∧
    ArenaSync.allocated_bytes σ = 0 ∧
    ArenaSync.total_capacity σ = 0 ∧
    ArenaLocal.new.root = none ∧
    ArenaSync.new.root = none ∧
    (ArenaLocal.with_chunk_size m).root = none ∧
    (ArenaSync.with_chunk_size m).root = none ∧
    (reset σ' false A).root = none := by
  have hc : σ.chunks = [] := by
    cases hc : σ.chunks with
    | nil => rfl
    | cons c rest => simp [ArenaState.root, hc] at h
  cases hc' : σ'.chunks with
  | nil =>
    simp [ArenaLocal.alloc_fast, ArenaSync.alloc_fast, ArenaLocal.resize_fast,
      ArenaSync.resize_fast, ArenaLocal.allocated_bytes, ArenaLocal.total_capacity,
      ArenaSync.allocated_bytes, ArenaSync.total_capacity, ArenaLocal.new, ArenaSync.new,
      ArenaLocal.with_chunk_size, ArenaSync.with_chunk_size, reset, CHUNK_START_SIZE,
      ArenaState.root, hc, hc']
  | cons c rest =>
    simp [ArenaLocal.alloc_fast, ArenaSync.alloc_fast, ArenaLocal.resize_fast,
      ArenaSync.resize_fast, ArenaLocal.allocated_bytes, ArenaLocal.total_capacity,
      ArenaSync.allocated_bytes, ArenaSync.total_capacity, ArenaLocal.new, ArenaSync.new,
      ArenaLocal.with_chunk_size, ArenaSync.with_chunk_size, reset, CHUNK_START_SIZE,
      ArenaState.root, hc, hc']

/-- Witness for C10 at the freshly constructed arena. -/
theorem empty_root_fast_paths_witness :
    ArenaLocal.alloc_fast ArenaLocal.new ⟨8, 8⟩ = none ∧
    ArenaSync.alloc_fast ArenaLocal.new ⟨8, 8⟩ = none ∧
    ArenaLocal.resize_fast ArenaLocal.new 0 ⟨4, 4⟩ ⟨8, 4⟩ = none ∧
    ArenaSync.resize_fast ArenaLocal.new 0 ⟨4, 4⟩ ⟨8, 4⟩ = none ∧
    ArenaLocal.allocated_bytes ArenaLocal.new = 0 ∧
    ArenaLocal.total_capacity ArenaLocal.new = 0 ∧
    ArenaSync.allocated_bytes ArenaLocal.new = 0 ∧
    ArenaSync.total_capacity ArenaLocal.new = 0 :=
  have h := empty_root_fast_paths ArenaLocal.new ArenaSync.new ⟨8, 8⟩ ⟨4, 4⟩ ⟨8, 4⟩ 0 32
    (fun _ => some 0) rfl
  ⟨h.1, h.2.1, h.2.2.1, h.2.2.2.1, h.2.2.2.2.1, h.2.2.2.2.2.1, h.2.2.2.2.2.2.1,
    h.2.2.2.2.2.2.2.1⟩

/-- Along a valid CAS trace the cursor never moves backward: every event's
returned range starts at or after the cursor at which the trace began. -/
theorem validCasTrace_mono (endAddr : Nat) :
    ∀ (t : List CasEvent) (cur : Nat), validCasTrace endAddr cur t →
      ∀ e ∈ t, cur ≤ CasEvent.start e := by
  intro t
  induction t with
  | nil =>
    intro cur h e he
    simp at he
  | cons e es ih =>
    intro cur h f hf
    obtain ⟨hobs, halign, hle, hrest⟩ := h
    have hal := le_alignUp e.observed e.align halign
    simp only [List.mem_cons] at hf
    rcases hf with hf | hf
    · subst hf
      simp only [CasEvent.start]
      omega
    · have h2 := ih e.stop hrest f hf
      simp only [CasEvent.stop, CasEvent.start] at h2 ⊢
      omega

/-- C9: in any linearized trace of successful fast-path compare-and-swap
allocations racing on one shared chunk, the returned byte ranges are
pairwise disjoint — every earlier range ends at or before a later range
begins — and each winning CAS performs exactly the chunk's bump
allocation at the cursor it observed. -/
theorem cas_fast_path_disjoint (endAddr cur0 : Nat) (t : List CasEvent)
    (h : validCasTrace endAddr cur0 t) :
    List.Pairwise (fun a b => CasEvent.stop a ≤ CasEvent.start b) t ∧
    (∀ e ∈ t, ∀ b cum : Nat,
      ChunkHeader.alloc ⟨b, e.observed, endAddr, cum⟩ ⟨e.size, e.align⟩ =
        some (CasEvent.start e, ⟨b, CasEvent.stop e, endAddr, cum⟩)) := by
  induction t generalizing cur0 with
  | nil => exact ⟨List.Pairwise.nil, by intro e he; simp at he⟩
  | cons e es ih =>
    obtain ⟨hobs, halign, hle, hrest⟩ := h
    obtain ⟨hpair, halloc⟩ := ih e.stop hrest
    refine ⟨List.Pairwise.cons ?_ hpair, ?_⟩
    · intro f hf
      exact validCasTrace_mono endAddr es e.stop hrest f hf
    · intro f hf b cum
      simp only [List.mem_cons] at hf
      rcases hf with hf | hf
      · subst hf
        unfold ChunkHeader.alloc
        have hcond : alignUp f.observed f.align + f.size ≤ endAddr := hle
        rw [if_pos hcond]
        rfl
      · exact halloc f hf b cum

/-- Witness for C9: a concrete two-event race on one chunk yields disjoint
ranges, each matching the chunk's bump allocation. -/
theorem cas_fast_path_disjoint_witness :
    validCasTrace 64 32 [⟨32, 1, 3⟩, ⟨35, 1, 5⟩] ∧
    List.Pairwise (fun a b => CasEvent.stop a ≤ CasEvent.start b)
      [⟨32, 1, 3⟩, ⟨35, 1, 5⟩] ∧
    ChunkHeader.alloc ⟨0, 32, 64, 0⟩ ⟨3, 1⟩ = some (32, ⟨0, 35, 64, 0⟩) :=
  have hv : validCasTrace 64 32 [⟨32, 1, 3⟩, ⟨35, 1, 5⟩] :=
    ⟨rfl, by decide, by decide, rfl, by decide, by decide, trivial⟩
  have h := cas_fast_path_disjoint 64 32 [⟨32, 1, 3⟩, ⟨35, 1, 5⟩] hv
  ⟨hv, h.1, h.2 ⟨32, 1, 3⟩ (List.mem_cons_self _ _) 0 0⟩


/-- Bump allocation changes only the cursor of a chunk. -/
theorem alloc_fields {c c' : ChunkHeader} {l : Layout} {p : Nat}
    (h : ChunkHeader.alloc c l = some (p, c')) :
    c'.base = c.base ∧ c'.endAddr = c.endAddr ∧ c'.cumulative_size = c.cumulative_size := by
  unfold ChunkHeader.alloc at h
  split at h
  · simp only [Option.some.injEq, Prod.mk.injEq] at h
    obtain ⟨hp, hc'⟩ := h
    subst hc'
    exact ⟨rfl, rfl, rfl⟩
  · exact Option.noConfusion h

/-- A pure fast run changes only the cursor of the chunk. -/
theorem fastRunChunk_fields :
    ∀ (ls : List Layout) (c c' : ChunkHeader), fastRunChunk c ls = some c' →
      c'.base = c.base ∧ c'.endAddr = c.endAddr ∧ c'.cumulative_size = c.cumulative_size := by
  intro ls
  induction ls with
  | nil =>
    intro c c' h
    simp only [fastRunChunk, Option.some.injEq] at h
    subst h
    exact ⟨rfl, rfl, rfl⟩
  | cons l ls ih =>
    intro c c' h
    unfold fastRunChunk at h
    cases halloc : ChunkHeader.alloc c l with
    | none =>
      rw [halloc] at h
      exact Option.noConfusion h
    | some pc =>
      obtain ⟨p, c1⟩ := pc
      rw [halloc] at h
      obtain ⟨h1, h2, h3⟩ := ih c1 c' h
      obtain ⟨g1, g2, g3⟩ := alloc_fields halloc
      exact ⟨h1.trans g1, h2.trans g2, h3.trans g3⟩

/-- Inversion of a successful slow-path allocation. -/
theorem alloc_slow_ok_inv {σ σ' : ArenaState} {l : Layout} {A : Allocator} {p : Nat}
    (h : alloc_slow σ l A = (.ok p, σ')) :
    ∃ addr c', A (chunkTotal σ.root σ.min_chunk_size l) = some addr ∧
      ChunkHeader.alloc (chunkFrom addr (chunkTotal σ.root σ.min_chunk_size l) σ.root) l =
        some (p, c') ∧
      σ' = { σ with chunks := c' :: σ.chunks } := by
  unfold alloc_slow at h
  cases hA : A (chunkTotal σ.root σ.min_chunk_size l) with
  | none =>
    simp only [hA] at h
    simp at h
  | some addr =>
    cases halloc :
        ChunkHeader.alloc (chunkFrom addr (chunkTotal σ.root σ.min_chunk_size l) σ.root) l with
    | none =>
      simp only [hA, halloc] at h
      simp at h
    | some pc =>
      obtain ⟨q, c'⟩ := pc
      simp only [hA, halloc, Prod.mk.injEq, Except.ok.injEq] at h
      obtain ⟨hq, hσ'⟩ := h
      subst hq
      subst hσ'
      exact ⟨addr, c', rfl, halloc, rfl⟩

/-- A successful slow-path allocation adds exactly one chunk. -/
theorem alloc_slow_ok_length {σ σ' : ArenaState} {l : Layout} {A : Allocator} {p : Nat}
    (h : alloc_slow σ l A = (.ok p, σ')) :
    σ'.chunks.length = σ.chunks.length + 1 := by
  obtain ⟨addr, c', hA, halloc, hσ'⟩ := alloc_slow_ok_inv h
  subst hσ'
  simp

/-- Along a successful run the chunk chain never shrinks. -/
theorem runPattern_length_mono (A : Allocator) :
    ∀ (ls : List Layout) (σ σ' : ArenaState), runPattern A σ ls = .ok σ' →
      σ.chunks.length ≤ σ'.chunks.length := by
  intro ls
  induction ls with
  | nil =>
    intro σ σ' h
    simp only [runPattern, Except.ok.injEq] at h
    subst h
    exact Nat.le_refl _
  | cons l ls ih =>
    intro σ σ' h
    unfold runPattern at h
    cases hstep : allocate σ l A with
    | mk r σ1 =>
      rw [hstep] at h
      cases r with
      | error e => simp at h
      | ok p =>
        have h' : runPattern A σ1 ls = .ok σ' := h
        have h2 := ih σ1 σ' h'
        have h1 : σ.chunks.length ≤ σ1.chunks.length := by
          unfold allocate at hstep
          cases hfast : ArenaLocal.alloc_fast σ l with
          | some pσ =>
            obtain ⟨q, σf⟩ := pσ
            simp only [hfast, Prod.mk.injEq, Except.ok.injEq] at hstep
            obtain ⟨hq, hσ1⟩ := hstep
            subst hσ1
            obtain ⟨chunks, m⟩ := σ
            cases chunks with
            | nil => exact Option.noConfusion hfast
            | cons c rest =>
              cases halloc : ChunkHeader.alloc c l with
              | none =>
                simp only [ArenaLocal.alloc_fast, halloc] at hfast
                exact Option.noConfusion hfast
              | some pc =>
                obtain ⟨q', c'⟩ := pc
                simp only [ArenaLocal.alloc_fast, halloc, Option.some.injEq,
                  Prod.mk.injEq] at hfast
                obtain ⟨hq', hσf⟩ := hfast
                subst hσf
                simp
          | none =>
            simp only [hfast] at hstep
            have := alloc_slow_ok_length hstep
            omega
        omega

/-- A pattern that runs purely on the root chunk's fast path is executed
identically by the full allocation protocol, never consulting the
upstream allocator. -/
theorem runPattern_of_fastRun (A : Allocator) :
    ∀ (ls : List Layout) (c c' : ChunkHeader) (rest : List ChunkHeader) (m : Nat),
      fastRunChunk c ls = some c' →
      runPattern A ⟨c :: rest, m⟩ ls = .ok ⟨c' :: rest, m⟩ := by
  intro ls
  induction ls with
  | nil =>
    intro c c' rest m h
    simp only [fastRunChunk, Option.some.injEq] at h
    subst h
    rfl
  | cons l ls ih =>
    intro c c' rest m h
    unfold fastRunChunk at h
    cases halloc : ChunkHeader.alloc c l with
    | none =>
      rw [halloc] at h
      exact Option.noConfusion h
    | some pc =>
      obtain ⟨p, c1⟩ := pc
      rw [halloc] at h
      have h' : fastRunChunk c1 ls = some c' := h
      have hfast : ArenaLocal.alloc_fast ⟨c :: rest, m⟩ l = some (p, ⟨c1 :: rest, m⟩) := by
        simp [ArenaLocal.alloc_fast, halloc]
      unfold runPattern allocate
      rw [hfast]
      exact ih c1 c' rest m h'

/-- A successful run that ends with as many chunks as it started — the
warmed-up single-chunk regime when the chain is a singleton — is exactly a
fast run on the root chunk. -/
theorem runPattern_single_chunk (A : Allocator) :
    ∀ (ls : List Layout) (c : ChunkHeader) (rest : List ChunkHeader) (m : Nat)
      (σ' : ArenaState),
      runPattern A ⟨c :: rest, m⟩ ls = .ok σ' →
      σ'.chunks.length = (c :: rest).length →
      ∃ c', fastRunChunk c ls = some c' ∧ σ' = ⟨c' :: rest, m⟩ := by
  intro ls
  induction ls with
  | nil =>
    intro c rest m σ' h hlen
    simp only [runPattern, Except.ok.injEq] at h
    subst h
    exact ⟨c, rfl, rfl⟩
  | cons l ls ih =>
    intro c rest m σ' h hlen
    unfold runPattern allocate at h
    cases halloc : ChunkHeader.alloc c l with
    | some pc =>
      obtain ⟨p, c1⟩ := pc
      have hfast : ArenaLocal.alloc_fast ⟨c :: rest, m⟩ l = some (p, ⟨c1 :: rest, m⟩) := by
        simp [ArenaLocal.alloc_fast, halloc]
      rw [hfast] at h
      have h' : runPattern A ⟨c1 :: rest, m⟩ ls = .ok σ' := h
      obtain ⟨c', hrun, hσ'⟩ := ih c1 rest m σ' h' (by simpa using hlen)
      refine ⟨c', ?_, hσ'⟩
      unfold fastRunChunk
      rw [halloc]
      exact hrun
    | none =>
      have hfail : ArenaLocal.alloc_fast ⟨c :: rest, m⟩ l = none := by
        simp [ArenaLocal.alloc_fast, halloc]
      rw [hfail] at h
      cases hslow : alloc_slow ⟨c :: rest, m⟩ l A with
      | mk r σ1 =>
        rw [hslow] at h
        cases r with
        | error e => simp at h
        | ok p =>
          have h' : runPattern A σ1 ls = .ok σ' := h
          have hlen1 := alloc_slow_ok_length hslow
          have hmono := runPattern_length_mono A ls σ1 σ' h'
          simp only [List.length_cons] at hlen hlen1
          omega

/-- Inversion of a successful slow-path allocation on a fresh arena: the
created chunk starts with its cursor at base and zero cumulative size,
and the triggering request is served from it. -/
theorem alloc_slow_fresh_ok_inv {m : Nat} {l : Layout} {A : Allocator} {p : Nat}
    {σ' : ArenaState} (h : alloc_slow ⟨[], m⟩ l A = (.ok p, σ')) :
    ∃ c₀ c₁, c₀.cursor = c₀.base ∧ c₀.cumulative_size = 0 ∧
      ChunkHeader.alloc c₀ l = some (p, c₁) ∧ σ' = ⟨[c₁], m⟩ := by
  obtain ⟨addr, c₁, hA, halloc, hσ'⟩ := alloc_slow_ok_inv h
  exact ⟨_, c₁, rfl, rfl, halloc, hσ'⟩

/-- C6: an allocation pattern that warms up into a single chunk is
reproduced exactly after a retaining reset: the second pass never touches
the allocator, ends in the very same state, so its `allocated_bytes()`
equals the first pass's value and `total_capacity()` is unchanged by the
repeated pass. -/
theorem warm_reset_idempotent (A : Allocator) (m : Nat) (l : Layout) (ls : List Layout)
    (σ₁ : ArenaState) (h1 : runPattern A ⟨[], m⟩ (l :: ls) = .ok σ₁)
    (hsingle : σ₁.chunks.length = 1) :
    runPattern A (reset σ₁ true A) (l :: ls) = .ok σ₁ ∧
    ArenaLocal.allocated_bytes (reset σ₁ true A) = 0 ∧
    ArenaLocal.total_capacity (reset σ₁ true A) = ArenaLocal.total_capacity σ₁ := by
  unfold runPattern allocate at h1
  have hfail : ArenaLocal.alloc_fast ⟨[], m⟩ l = none := rfl
  rw [hfail] at h1
  cases hslow : alloc_slow ⟨[], m⟩ l A with
  | mk r σ1 =>
    rw [hslow] at h1
    cases r with
    | error e => simp at h1
    | ok p =>
      have h1' : runPattern A σ1 ls = .ok σ₁ := h1
      obtain ⟨c₀, c₁, hcur, hcum, halloc, hσ1⟩ := alloc_slow_fresh_ok_inv hslow
      subst hσ1
      have h1'' : runPattern A ⟨c₁ :: [], m⟩ ls = .ok σ₁ := h1'
      obtain ⟨c', hrun, hσ₁⟩ :=
        runPattern_single_chunk A ls c₁ [] m σ₁ h1'' (by simpa using hsingle)
      subst hσ₁
      obtain ⟨f1, f2, f3⟩ := alloc_fields halloc
      obtain ⟨e1, e2, e3⟩ := fastRunChunk_fields ls c₁ c' hrun
      have hkey : { c' with cursor := c'.base, cumulative_size := 0 } = c₀ := by
        show ChunkHeader.mk c'.base c'.base c'.endAddr 0 = c₀
        obtain ⟨b0, u0, en0, k0⟩ := c₀
        simp only at hcur hcum f1 f2 f3
        rw [e1, f1, e2, f2, hcur, hcum]
      have hreset : reset (⟨[c'], m⟩ : ArenaState) true A = ⟨[c₀], m⟩ := by
        show (⟨[{ c' with cursor := c'.base, cumulative_size := 0 }], m⟩ : ArenaState) =
          ⟨[c₀], m⟩
        rw [hkey]
      have hfast2 : ArenaLocal.alloc_fast ⟨[c₀], m⟩ l = some (p, ⟨[c₁], m⟩) := by
        simp [ArenaLocal.alloc_fast, halloc]
      refine ⟨?_, ?_, ?_⟩
      · rw [hreset]
        unfold runPattern allocate
        rw [hfast2]
        exact runPattern_of_fastRun A ls c₁ c' [] m hrun
      · rw [hreset]
        simp [ArenaLocal.allocated_bytes, ArenaState.root, hcur, hcum]
      · rw [hreset]
        simp only [ArenaLocal.total_capacity, ArenaState.root, List.head?_cons]
        unfold ChunkHeader.cap
        rw [e1, f1, e2, f2, e3, f3]

/-- Witness for C6: two 3-byte allocations from a fresh 32-byte arena,
repeated after a retaining reset, land in the same state. -/
theorem warm_reset_idempotent_witness :
    runPattern zeroAllocator { chunks := [], min_chunk_size := 32 } [⟨3, 1⟩, ⟨3, 1⟩] =
      .ok { chunks := [⟨32, 38, 64, 0⟩], min_chunk_size := 32 } ∧
    ({ chunks := [⟨32, 38, 64, 0⟩], min_chunk_size := 32 } : ArenaState).chunks.length = 1 ∧
    runPattern zeroAllocator
        (reset { chunks := [⟨32, 38, 64, 0⟩], min_chunk_size := 32 } true zeroAllocator)
        [⟨3, 1⟩, ⟨3, 1⟩] =
      .ok { chunks := [⟨32, 38, 64, 0⟩], min_chunk_size := 32 } :=
  ⟨by rfl, by rfl,
    (warm_reset_idempotent zeroAllocator 32 ⟨3, 1⟩ [⟨3, 1⟩] _ (by rfl) (by rfl)).1⟩

/-- C7 fails as stated: in the section-8 scenario (arena seeded at 32
bytes, eleven 3-byte allocations) the slow path's second chunk — created
for the very same inputs `min_chunk_size = 32`, `s = 3` as the first —
has capacity 96, while the claimed formula `max(min_chunk_size, s)`
rounded so that capacity plus header overhead is the next power of two
yields 32 (the first chunk's capacity): no function of the minimum chunk
size and the request size alone can produce both capacities the scenario
itself demands. -/
theorem chunk_growth_counterexample :
    runPattern zeroAllocator { chunks := [], min_chunk_size := 32 } scenarioPattern =
      .ok { chunks := [⟨32, 35, 128, 32⟩, ⟨32, 62, 64, 0⟩], min_chunk_size := 32 } ∧
    ChunkHeader.cap ⟨32, 35, 128, 32⟩ = 96 ∧
    ChunkHeader.cap ⟨32, 62, 64, 0⟩ = 32 ∧
    claimedCapacity 32 3 = 32 ∧
    (96 : Nat) ≠ 32 :=
  ⟨by rfl, by rfl, by rfl, by rfl, by decide⟩

/-- C7 (amended): the slow path sizes a new chunk from `max(g, size +
align)` — `g` being the minimum chunk size for the first chunk and one
more than the previous chunk's capacity afterwards — rounded so that
capacity plus header overhead is the next power of two, the header
overhead subtracted back out; on the section-8 scenario the first pass
reports 35 allocated bytes, the retained capacity after the reset is 96,
and the second pass reports exactly 33. -/
theorem chunk_growth_amended :
    (∀ (σ σ' : ArenaState) (l : Layout) (A : Allocator) (p : Nat),
      alloc_slow σ l A = (.ok p, σ') →
      ∃ c, σ'.root = some c ∧
        c.cap =
          nextPow2 (chunkRequest σ.root σ.min_chunk_size l + CHUNK_HEADER_SIZE) -
            CHUNK_HEADER_SIZE) ∧
    (runPattern zeroAllocator { chunks := [], min_chunk_size := 32 } scenarioPattern).map
        ArenaLocal.allocated_bytes = .ok 35 ∧
    (runPattern zeroAllocator { chunks := [], min_chunk_size := 32 } scenarioPattern).map
        (fun σ => ArenaLocal.total_capacity (reset σ true zeroAllocator)) = .ok 96 ∧
    (runPattern zeroAllocator { chunks := [], min_chunk_size := 32 } scenarioPattern).map
        (fun σ => (runPattern zeroAllocator (reset σ true zeroAllocator)
            scenarioPattern).map ArenaLocal.allocated_bytes) = .ok (.ok 33) := by
  refine ⟨?_, by rfl, by rfl, by rfl⟩
  intro σ σ' l A p h
  obtain ⟨addr, c', hA, halloc, hσ'⟩ := alloc_slow_ok_inv h
  obtain ⟨f1, f2, f3⟩ := alloc_fields halloc
  subst hσ'
  refine ⟨c', by simp [ArenaState.root], ?_⟩
  unfold ChunkHeader.cap
  rw [f1, f2]
  show (addr + chunkTotal σ.root σ.min_chunk_size l) - (addr + CHUNK_HEADER_SIZE) = _
  unfold chunkTotal
  omega

/-- Witness for C7's amended growth rule at the scenario's second chunk. -/
theorem chunk_growth_amended_witness :
    alloc_slow { chunks := [⟨32, 62, 64, 0⟩], min_chunk_size := 32 } ⟨3, 1⟩ zeroAllocator =
      (.ok 32, { chunks := [⟨32, 35, 128, 32⟩, ⟨32, 62, 64, 0⟩], min_chunk_size := 32 }) ∧
    ∃ c,
      ({ chunks := [⟨32, 35, 128, 32⟩, ⟨32, 62, 64, 0⟩], min_chunk_size := 32 } :
        ArenaState).root = some c ∧
      c.cap =
        nextPow2 (chunkRequest
            ({ chunks := [⟨32, 62, 64, 0⟩], min_chunk_size := 32 } : ArenaState).root
            32 ⟨3, 1⟩ + CHUNK_HEADER_SIZE) - CHUNK_HEADER_SIZE :=
  ⟨by rfl, chunk_growth_amended.1 _ _ ⟨3, 1⟩ zeroAllocator 32 (by rfl)⟩

end BlinkAlloc
